import Mathlib

/-!
# Verification of the Countable text-statistics library

This file gives a shallow embedding of `src/Countable.js` (version 2.0.0):
the pure counting algorithm (`_decode`, `_count` and its helper regular
expressions) and the live-binding registry (`live`, `die`, `once`,
`enabled`, backed by the `_liveElements` array), together with theorems
settling the specified properties.

A JavaScript string is modelled as a `List Nat` of UTF-16 code units.
DOM elements are modelled by an identity, their `nodeType`, and whether
they support `addEventListener`/`removeEventListener` (the source probes
for these before attaching or detaching).  Event delivery is modelled
explicitly: a change event on an element runs every listener currently
attached to it, in attachment order, and each such handler invocation
calls the user callback exactly once.
-/

/-! ## Character classes (the regular-expression building blocks) -/

/-- The JavaScript regex class `\s` (ECMAScript WhiteSpace and
LineTerminator code points): tab through carriage return, space, NBSP,
Ogham space mark, the U+2000..U+200A range, LS, PS, NNBSP, MMSP,
ideographic space and the BOM. -/
def isWS (c : Nat) : Bool :=
  (9 ≤ c && c ≤ 13) || c == 32 || c == 160 || c == 5760 ||
  (8192 ≤ c && c ≤ 8202) || c == 8232 || c == 8233 ||
  c == 8239 || c == 8287 || c == 12288 || c == 65279

/-- The regex `\n`: a line-feed code unit. -/
def isLF (c : Nat) : Bool := c == 10

/-- The regex class `[\n\r]` used for the `all` metric. -/
def isNL (c : Nat) : Bool := c == 10 || c == 13

/-- The punctuation class `['";:,.?¿\-!¡]` removed before word counting. -/
def isPunct (c : Nat) : Bool :=
  c == 39 || c == 34 || c == 59 || c == 58 || c == 44 || c == 46 ||
  c == 63 || c == 191 || c == 45 || c == 33 || c == 161

/-- The test `(value & 0xF800) == 0xD800` from `_decode`.  Note that this
matches every surrogate code unit, low halves included. -/
def isSurr (c : Nat) : Bool := c &&& 0xF800 == 0xD800

/-- The test `(extra & 0xFC00) == 0xDC00` from `_decode`: a low
surrogate. -/
def isLowSurr (c : Nat) : Bool := c &&& 0xFC00 == 0xDC00

/-! ## `_decode` : UTF-16 code units to code points -/

/-- `_decode` from the source: walks the code units left to right; when a
unit passing the `(value & 0xF800) == 0xD800` test is followed by a unit
passing the `(extra & 0xFC00) == 0xDC00` test, the two are combined into
the single code point `((value & 0x3FF) << 10) + (extra & 0x3FF) +
0x10000`; otherwise both consumed units are emitted unchanged (and a
trailing lone unit is emitted unchanged). -/
def decode : List Nat → List Nat
  | [] => []
  | v :: rest =>
    if isSurr v then
      match rest with
      | [] => [v]
      | e :: rest2 =>
        if isLowSurr e then
          (((v &&& 0x3FF) <<< 10) + (e &&& 0x3FF) + 0x10000) :: decode rest2
        else
          v :: e :: decode rest2
    else v :: decode rest

/-! ## Trimming, tag stripping and run counting -/

/-- `String.trim` / the polyfill `replace(/^\s+|\s+$/g, '')`: drop the
leading and the trailing run of whitespace. -/
def trim (l : List Nat) : List Nat :=
  ((l.dropWhile isWS).reverse.dropWhile isWS).reverse

/-- Part of the tag pattern `[^>]*>`: skip to just past the next `>`
(code unit 62), failing if there is none. -/
def dropThroughGt : List Nat → Option (List Nat)
  | [] => none
  | c :: rest => if c == 62 then some rest else dropThroughGt rest

/-- The class `[a-z]` under the case-insensitive flag `i`. -/
def isLetter (c : Nat) : Bool :=
  (97 ≤ c && c ≤ 122) || (65 ≤ c && c ≤ 90)

/-- Matching the tail `\/?[a-z][^>]*>` of the tag pattern against the
text following a `<`: an optional `/` (47), then a letter, then
everything up to and including the next `>`.  Returns the remainder of
the text after the match, or `none` when the pattern does not match
here. -/
def tagEnd : List Nat → Option (List Nat)
  | [] => none
  | c :: rest =>
    if c == 47 then
      match rest with
      | [] => none
      | d :: rest2 => if isLetter d then dropThroughGt rest2 else none
    else if isLetter c then dropThroughGt rest else none

/-- The global replace `replace(/<\/?[a-z][^>]*>/gi, '')`, scanning left
to right: at a `<` (60) whose tail matches the tag pattern the whole
match is dropped and scanning resumes after it; any other unit is kept.
The fuel argument bounds the recursion; every step consumes at least one
code unit, so fuel equal to the length of the text (as supplied by
`stripTags`) is never exhausted. -/
def stripTagsF : Nat → List Nat → List Nat
  | 0, l => l
  | _ + 1, [] => []
  | f + 1, c :: rest =>
    if c == 60 then
      match tagEnd rest with
      | some r => stripTagsF f r
      | none => c :: stripTagsF f rest
    else c :: stripTagsF f rest

/-- Tag stripping as performed by `_count` when `options.stripTags` is
set. -/
def stripTags (l : List Nat) : List Nat := stripTagsF l.length l

/-- Helper for `countRuns`: `run` is the length of the current run of
units satisfying `p`.  A finished run contributes one match when its
length reaches `mn`. -/
def countRunsGo (p : Nat → Bool) (mn : Nat) : List Nat → Nat → Nat
  | [], run => if mn ≤ run then 1 else 0
  | c :: rest, run =>
    if p c then countRunsGo p mn rest (run + 1)
    else (if mn ≤ run then 1 else 0) + countRunsGo p mn rest 0

/-- `(s.match re) || []).length` for the run regexes of `_count`: the
number of maximal runs of units satisfying `p` whose length is at least
`mn` (`mn = 1` models `x+`, `mn = 2` models `x{2,}`; `mn` is always
positive at the call sites). -/
def countRuns (p : Nat → Bool) (mn : Nat) (l : List Nat) : Nat :=
  countRunsGo p mn l 0

/-! ## `_count` -/

/-- The object literal returned by `_count` (source field names;
`all` is the spec's `charactersAndSpaces`). -/
structure CountResult where
  paragraphs : Nat
  words : Nat
  characters : Nat
  all : Nat
deriving DecidableEq

/-- The effective options produced by `_extendDefaults`: any partial
caller configuration is overlaid onto `{ hardReturns: false, stripTags:
false }`, so the effective configuration space is exactly these two
booleans. -/
structure CountOptions where
  hardReturns : Bool
  stripTags : Bool
deriving DecidableEq

/-- The reassignment `original = original.replace(...)` at the top of
`_count`: the text actually counted, after the optional tag strip. -/
def origText (t : List Nat) (o : CountOptions) : List Nat :=
  if o.stripTags then stripTags t else t

/-- `_count` on the element's text value: optionally strip tags, trim,
then compute the four metrics.  `paragraphs` counts matches of
`/\n{2,}/g` (hard returns) or `/\n+/g` plus one on the trimmed text;
`words` counts matches of `/\S+/g` after removing the punctuation class;
`characters` decodes the trimmed text with all whitespace removed;
`all` decodes the untrimmed (but possibly tag-stripped) text with
`[\n\r]` removed.  The first three are `0` when the trimmed text is
empty. -/
def count (text : List Nat) (o : CountOptions) : CountResult :=
  let original := origText text o
  let trimmed := trim original
  { paragraphs :=
      if trimmed.isEmpty then 0
      else countRuns isLF (if o.hardReturns then 2 else 1) trimmed + 1,
    words :=
      if trimmed.isEmpty then 0
      else countRuns (fun c => !isWS c) 1 (trimmed.filter (fun c => !isPunct c)),
    characters :=
      if trimmed.isEmpty then 0
      else (decode (trimmed.filter (fun c => !isWS c))).length,
    all := (decode (original.filter (fun c => !isNL c))).length }

/-! ## The live-binding registry

`_liveElements` is an array of `{ element, handler }` objects, appended
to by `live` and spliced by `die`.  Each call of `bind` inside `live`
creates a fresh handler closure; handler identity is modelled by a
counter `nextHandler` allocating a fresh id per binding.  The DOM side
is modelled by `listeners`, the ordered list of (element, handler) pairs
currently attached via `addEventListener`/`attachEvent`, and by the
`fired` log recording every handler invocation (each of which calls the
user callback exactly once with the element as receiver).  `calls` logs
the direct callback invocations performed by `once`. -/

/-- A DOM element: an identity, its `nodeType` (the `enabled` method
tests `nodeType === 1`), and whether it exposes
`addEventListener`/`removeEventListener` (the source probes for these
and silently skips attaching or detaching when absent). -/
structure Elem where
  id : Nat
  nodeType : Nat
  supportsEvents : Bool
deriving DecidableEq

/-- One `{ element: element, handler: handler }` object pushed onto
`_liveElements`. -/
structure Binding where
  element : Elem
  handler : Nat
deriving DecidableEq

/-- The mutable state of the registry together with the modelled DOM
listener table and the invocation logs. -/
structure RegState where
  liveElements : List Binding
  listeners : List Binding
  nextHandler : Nat
  fired : List Binding
  calls : List Elem
deriving DecidableEq

/-- The state at script load: `_liveElements` is empty and nothing is
attached. -/
def initState : RegState := ⟨[], [], 0, [], []⟩

/-- The arguments reaching `_validateArguments`: whether
`typeof selector === 'string'`, the element collection resolved by
`_query`, and whether the callback is a function. -/
structure Args where
  selectorIsString : Bool
  elements : List Elem
  callbackIsFunction : Bool

/-- `_validateArguments`: all of a string selector, a non-empty
resolved collection and a callable callback (the console warnings it
emits are outside the model). -/
def validateArguments (a : Args) : Bool :=
  a.selectorIsString && !a.elements.isEmpty && a.callbackIsFunction

/-- The `_liveElements.push({ element, handler })` step of `bind`: a
fresh handler closure is created and the binding is appended.  Returns
the new binding together with the updated state. -/
def pushBinding (s : RegState) (e : Elem) : Binding × RegState :=
  let b : Binding := ⟨e, s.nextHandler⟩
  (b, { s with
          liveElements := s.liveElements ++ [b],
          nextHandler := s.nextHandler + 1 })

/-- One run of a bound handler: it calls the user callback once (with
the element as receiver and the fresh `_count` result as argument);
only the invocation itself is recorded. -/
def invokeHandler (s : RegState) (b : Binding) : RegState :=
  { s with fired := s.fired ++ [b] }

/-- The `addEventListener`/`attachEvent` step of `bind`; skipped
silently when the element supports neither. -/
def attachListener (s : RegState) (b : Binding) : RegState :=
  if b.element.supportsEvents then { s with listeners := s.listeners ++ [b] }
  else s

/-- The `bind` closure of `live`, in source order: push the binding,
fire the handler once synchronously, then attach the listener. -/
def bindOne (s : RegState) (e : Elem) : RegState :=
  let p := pushBinding s e
  attachListener (invokeHandler p.2 p.1) p.1

/-- `Countable.live`: validate, then `_loop` over the elements (the
source loop runs from the last index down to the first) binding each.
On validation failure nothing happens and the bare `return` yields
`undefined` (`none`); on success the Countable object itself is
returned for chaining (`some ()`). -/
def live (s : RegState) (a : Args) : Option Unit × RegState :=
  if !validateArguments a then (none, s)
  else (some (), a.elements.reverse.foldl bindOne s)

/-- The inner loop of `die` over `_liveElements`: it iterates in reverse
order and overwrites `liveElement` at every match, so it ends holding
the match at the smallest index — the first-pushed binding for the
element.  `List.find?` returns exactly that binding. -/
def findLive (bs : List Binding) (e : Elem) : Option Binding :=
  bs.find? (fun b => b.element == e)

/-- The `removeEventListener`/`detachEvent` step of `die`; skipped
silently when the element supports neither. -/
def removeListener (s : RegState) (b : Binding) : RegState :=
  if b.element.supportsEvents then { s with listeners := s.listeners.erase b }
  else s

/-- The per-element body of `die`'s outer loop: find the first-pushed
binding for the element (skipping the element when there is none),
detach its handler, and `splice` the binding out of `_liveElements`
(`indexOf` locates the object's own position, the position of that
first-pushed match). -/
def dieOne (s : RegState) (e : Elem) : RegState :=
  match findLive s.liveElements e with
  | none => s
  | some b =>
      { removeListener s b with liveElements := s.liveElements.erase b }

/-- `Countable.die`: validate (the callback slot is filled with the
always-valid `function () {}`), then `_loop` over the elements in
reverse removing each element's binding.  Validation failure returns
`undefined` (`none`) and changes nothing. -/
def die (s : RegState) (selectorIsString : Bool) (elements : List Elem) :
    Option Unit × RegState :=
  if !validateArguments ⟨selectorIsString, elements, true⟩ then (none, s)
  else (some (), elements.reverse.foldl dieOne s)

/-- The per-element body of `once`: `callback.call(element, _count(...))`
is invoked directly; no binding, no listener. -/
def onceOne (s : RegState) (e : Elem) : RegState :=
  { s with calls := s.calls ++ [e] }

/-- `Countable.once`: validate, then invoke the callback once per
element (loop again in reverse order). -/
def once (s : RegState) (a : Args) : Option Unit × RegState :=
  if !validateArguments a then (none, s)
  else (some (), a.elements.reverse.foldl onceOne s)

/-- `Countable.enabled`: false for a missing argument or one whose
`nodeType` is not 1; otherwise the loop over `_liveElements` reports
whether some binding holds this element. -/
def enabled (s : RegState) (el : Option Elem) : Bool :=
  match el with
  | none => false
  | some e => e.nodeType == 1 && s.liveElements.any (fun b => b.element == e)

/-- The listeners a change event on `e` runs, in attachment order. -/
def listenersFor (s : RegState) (e : Elem) : List Binding :=
  s.listeners.filter (fun b => b.element == e)

/-- Delivery of one host change event on element `e`: every listener
currently attached to `e` runs, in attachment order, and each run
invokes the user callback once. -/
def deliverChange (s : RegState) (e : Elem) : RegState :=
  { s with fired := s.fired ++ listenersFor s e }


/-! ## Helper lemmas about the counter -/

/-- Line terminators are whitespace. -/
theorem ws_of_nl {c : Nat} (h : isNL c = true) : isWS c = true := by
  have : c = 10 ∨ c = 13 := by simpa [isNL] using h
  rcases this with h1 | h1 <;> subst h1 <;> decide

/-- On surrogate-free input `_decode` is the identity: every unit takes
the plain branch. -/
theorem decode_eq_self : ∀ l : List Nat, (∀ c ∈ l, isSurr c = false) → decode l = l := by
  intro l h
  induction l with
  | nil => rfl
  | cons v rest ih =>
    have hv : isSurr v = false := h v (List.mem_cons_self _ _)
    have hrest := ih fun c hc => h c (List.mem_cons_of_mem _ hc)
    cases rest with
    | nil => simp [decode, hv]
    | cons e rest2 => simp [decode, hv, hrest]

/-- Dropping a `p`-prefix does not change the `p`-free part. -/
theorem filter_dropWhile_not (p : Nat → Bool) :
    ∀ l : List Nat, (l.dropWhile p).filter (fun c => !p c) = l.filter (fun c => !p c) := by
  intro l
  induction l with
  | nil => rfl
  | cons c rest ih =>
    by_cases hc : p c = true
    · simp [List.dropWhile_cons, hc, List.filter_cons, ih]
    · simp [List.dropWhile_cons, hc]

/-- Trimming does not change the whitespace-free part of the text. -/
theorem filter_trim (l : List Nat) :
    (trim l).filter (fun c => !isWS c) = l.filter (fun c => !isWS c) := by
  unfold trim
  rw [List.filter_reverse, filter_dropWhile_not, List.filter_reverse,
    List.reverse_reverse, filter_dropWhile_not]

/-- `characters` without the emptiness case split: it is always the
decoded length of the whitespace-free part of the (tag-stripped)
text. -/
theorem characters_eq (t : List Nat) (o : CountOptions) :
    (count t o).characters
      = (decode ((origText t o).filter (fun c => !isWS c))).length := by
  by_cases h : (trim (origText t o)).isEmpty
  · have h0 : trim (origText t o) = [] := by
      rwa [List.isEmpty_iff] at h
    have h1 : (origText t o).filter (fun c => !isWS c) = [] := by
      rw [← filter_trim, h0]
      rfl
    simp [count, h, h1, decode]
  · simp [count, h, filter_trim]

/-- `all` is the decoded length of the line-terminator-free
(tag-stripped) text. -/
theorem all_eq (t : List Nat) (o : CountOptions) :
    (count t o).all
      = (decode ((origText t o).filter (fun c => !isNL c))).length := rfl

/-- Whatever `dropThroughGt` returns is a suffix of its input. -/
theorem dropThroughGt_subset :
    ∀ l r, dropThroughGt l = some r → ∀ c ∈ r, c ∈ l := by
  intro l
  induction l with
  | nil => intro r h; simp [dropThroughGt] at h
  | cons x rest ih =>
    intro r h c hc
    by_cases hx : x == 62
    · simp only [dropThroughGt, hx, if_true, Option.some.injEq] at h
      exact h ▸ List.mem_cons_of_mem _ hc
    · simp only [dropThroughGt, hx, Bool.false_eq_true, if_false] at h
      exact List.mem_cons_of_mem _ (ih r h c hc)

/-- Whatever `tagEnd` returns is a suffix of its input. -/
theorem tagEnd_subset :
    ∀ l r, tagEnd l = some r → ∀ c ∈ r, c ∈ l := by
  intro l r h c hc
  match l with
  | [] => simp [tagEnd] at h
  | x :: rest =>
    by_cases hx : x == 47
    · match rest with
      | [] => simp [tagEnd, hx] at h
      | d :: rest2 =>
        by_cases hd : isLetter d
        · simp only [tagEnd, hx, if_true, hd] at h
          exact List.mem_cons_of_mem _ (List.mem_cons_of_mem _
            (dropThroughGt_subset rest2 r h c hc))
        · simp [tagEnd, hx, hd] at h
    · by_cases hl : isLetter x
      · simp only [tagEnd, hx, Bool.false_eq_true, if_false, hl, if_true] at h
        exact List.mem_cons_of_mem _ (dropThroughGt_subset rest r h c hc)
      · simp [tagEnd, hx, hl] at h

/-- Tag stripping only deletes code units. -/
theorem stripTagsF_subset :
    ∀ f l, ∀ c ∈ stripTagsF f l, c ∈ l := by
  intro f
  induction f with
  | zero => intro l c hc; exact hc
  | succ f ih =>
    intro l c hc
    match l with
    | [] => simp [stripTagsF] at hc
    | x :: rest =>
      by_cases hx : x == 60
      · rcases htag : tagEnd rest with _ | r
        · simp only [stripTagsF, hx, if_true, htag] at hc
          rcases List.mem_cons.mp hc with h1 | h1
          · exact h1 ▸ List.mem_cons_self _ _
          · exact List.mem_cons_of_mem _ (ih rest c h1)
        · simp only [stripTagsF, hx, if_true, htag] at hc
          exact List.mem_cons_of_mem _ (tagEnd_subset rest r htag c (ih r c hc))
      · simp only [stripTagsF, hx, Bool.false_eq_true, if_false] at hc
        rcases List.mem_cons.mp hc with h1 | h1
        · exact h1 ▸ List.mem_cons_self _ _
        · exact List.mem_cons_of_mem _ (ih rest c h1)

/-- The counted text is made of code units of the input text. -/
theorem origText_subset (t : List Nat) (o : CountOptions) :
    ∀ c ∈ origText t o, c ∈ t := by
  intro c hc
  unfold origText at hc
  by_cases hst : o.stripTags
  · rw [if_pos hst] at hc
    exact stripTagsF_subset _ _ c hc
  · rwa [if_neg hst] at hc

/-! ## Claims about the counter -/

/-- Claim C2: the spec's three paragraph-count test equalities.  The
second one is false on the code: with `hardReturns` the run `\n\n` in
`a\n\nb` is one match of `/\n{2,}/g`, so `_count` returns `1 + 1 = 2`
paragraphs, not `1`. -/
theorem hardReturns_spec_equality_fails :
    (count [97, 10, 10, 98] ⟨true, false⟩).paragraphs = 2 ∧
    ¬ (count [97, 10, 10, 98] ⟨true, false⟩).paragraphs = 1 := by
  decide

/-- Claim C2, amended: `count("a\n\nb", hardReturns:false).paragraphs =
2`, `count("a\n\nb", hardReturns:true).paragraphs = 2`, and
`count("a\nb", hardReturns:true).paragraphs = 1`. -/
theorem paragraph_test_equalities :
    (count [97, 10, 10, 98] ⟨false, false⟩).paragraphs = 2 ∧
    (count [97, 10, 10, 98] ⟨true, false⟩).paragraphs = 2 ∧
    (count [97, 10, 98] ⟨true, false⟩).paragraphs = 1 := by
  decide

/-- Claim C6: counting the empty string yields all four metrics zero,
for every effective configuration. -/
theorem count_empty_all_zero :
    ∀ o : CountOptions, count [] o = ⟨0, 0, 0, 0⟩ := by
  rintro ⟨_ | _, _ | _⟩ <;> decide

/-- Claim C5: `count("😀😀").characters = 2` does hold, but the claim
that an unpaired surrogate half always counts as one unit fails: the
surrogate test `(value & 0xF800) == 0xD800` also matches low halves, so
`_decode` merges the two unpaired low halves of `"\uDC00\uDC00"` into
the single code point `0x10000` and `characters` is `1` where standard
UTF-16 decoding yields `2` units. -/
theorem decode_merges_unpaired_low_halves :
    ∀ o : CountOptions,
      (count [0xD83D, 0xDE00, 0xD83D, 0xDE00] o).characters = 2 ∧
      (count [0xDC00, 0xDC00] o).characters = 1 ∧
      decode [0xDC00, 0xDC00] = [65536] := by
  rintro ⟨_ | _, _ | _⟩ <;> decide

/-- Claim C3: false as stated, on both sides.  At
`t = "\uD800 𐀀𐀀"` the inequality itself fails:
removing the space glues the lone high half onto the following pair, the
mis-masked surrogate test then mis-groups the whole suffix, and
`characters = 5 > 4 = charactersAndSpaces`.  And at `t = "a\nb"` the two
metrics are equal although `t` contains whitespace, refuting the
only-if direction of the stated equivalence. -/
theorem characters_le_all_fails :
    (count [55296, 32, 55296, 56320, 55296, 56320] ⟨false, false⟩).characters = 5 ∧
    (count [55296, 32, 55296, 56320, 55296, 56320] ⟨false, false⟩).all = 4 ∧
    (count [97, 10, 98] ⟨false, false⟩).all
      = (count [97, 10, 98] ⟨false, false⟩).characters ∧
    [97, 10, 98].any isWS = true := by
  decide

/-- Claim C3, amended: for texts free of surrogate code units,
`charactersAndSpaces ≥ characters` for every configuration, and the two
are equal whenever the text contains no whitespace at all (the converse
is false, see the counterexample). -/
theorem characters_le_all (t : List Nat) (o : CountOptions)
    (hs : ∀ c ∈ t, isSurr c = false) :
    (count t o).characters ≤ (count t o).all ∧
    ((∀ c ∈ t, isWS c = false) → (count t o).all = (count t o).characters) := by
  have hs' : ∀ c ∈ origText t o, isSurr c = false :=
    fun c hc => hs c (origText_subset t o c hc)
  have hchar : (count t o).characters
      = ((origText t o).filter (fun c => !isWS c)).length := by
    rw [characters_eq, decode_eq_self]
    intro c hc
    exact hs' c (List.mem_of_mem_filter hc)
  have hall : (count t o).all
      = ((origText t o).filter (fun c => !isNL c)).length := by
    rw [all_eq, decode_eq_self]
    intro c hc
    exact hs' c (List.mem_of_mem_filter hc)
  constructor
  · rw [hchar, hall]
    have hsplit : (origText t o).filter (fun c => !isWS c)
        = ((origText t o).filter (fun c => !isNL c)).filter (fun c => !isWS c) := by
      rw [List.filter_filter]
      apply List.filter_congr
      intro c _
      by_cases h : isNL c = true
      · simp [h, ws_of_nl h]
      · simp [Bool.eq_false_iff.mpr h]
    rw [hsplit]
    exact List.length_filter_le _ _
  · intro hw
    have hw' : ∀ c ∈ origText t o, isWS c = false :=
      fun c hc => hw c (origText_subset t o c hc)
    have hnl' : ∀ c ∈ origText t o, isNL c = false := by
      intro c hc
      rcases h : isNL c with _ | _
      · rfl
      · exact absurd (ws_of_nl h) (by simp [hw' c hc])
    rw [hchar, hall]
    rw [List.filter_eq_self.mpr (by intro c hc; simp [hnl' c hc]),
      List.filter_eq_self.mpr (by intro c hc; simp [hw' c hc])]

/-! ## Helper lemmas about the registry -/

/-- `find?` skips a prefix on which the predicate fails everywhere. -/
theorem find?_append_of_none {α : Type} (p : α → Bool) :
    ∀ l1 l2 : List α, (∀ b ∈ l1, p b = false) →
      (l1 ++ l2).find? p = l2.find? p := by
  intro l1
  induction l1 with
  | nil => intro l2 _; rfl
  | cons x xs ih =>
    intro l2 h
    have hx : p x = false := h x (List.mem_cons_self _ _)
    rw [List.cons_append, List.find?_cons_of_neg _ (by simp [hx])]
    exact ih l2 fun b hb => h b (List.mem_cons_of_mem _ hb)

/-- Erasing the first element found by `find? p` is erasing the first
element satisfying `p`. -/
theorem erase_eq_eraseP_of_find? {α : Type} [DecidableEq α] (p : α → Bool) :
    ∀ (l : List α) (b : α), l.find? p = some b → l.erase b = l.eraseP p := by
  intro l
  induction l with
  | nil => intro b h; simp [List.find?] at h
  | cons x xs ih =>
    intro b h
    by_cases hx : p x = true
    · rw [List.find?_cons_of_pos _ hx] at h
      injection h with h
      subst h
      simp [List.erase_cons, List.eraseP_cons, hx]
    · rw [List.find?_cons_of_neg _ (by simp [hx])] at h
      have hpb : p b = true := List.find?_some h
      have hxb : (x == b) = false := by
        rcases hxb : x == b with _ | _
        · rfl
        · exact absurd (beq_iff_eq.mp hxb ▸ hpb) hx
      simp [List.erase_cons, hxb, List.eraseP_cons, hx, ih b h]

/-- Erasing the first `p`-element removes exactly the head of the
`p`-sublist. -/
theorem filter_eraseP {α : Type} (p : α → Bool) :
    ∀ l : List α, (l.eraseP p).filter p = (l.filter p).tail := by
  intro l
  induction l with
  | nil => rfl
  | cons x xs ih =>
    by_cases hx : p x = true
    · simp [List.eraseP_cons, hx, List.filter_cons]
    · simp [List.eraseP_cons, hx, List.filter_cons, ih]

/-- `bind` appends the fresh binding to `_liveElements`. -/
theorem bindOne_liveElements (s : RegState) (e : Elem) :
    (bindOne s e).liveElements = s.liveElements ++ [⟨e, s.nextHandler⟩] := by
  by_cases hsup : e.supportsEvents = true <;>
    simp [bindOne, pushBinding, invokeHandler, attachListener, hsup]

/-- `bind` fires its handler exactly once, before (and so independently
of) the listener-attachment step. -/
theorem bindOne_fired (s : RegState) (e : Elem) :
    (bindOne s e).fired = s.fired ++ [⟨e, s.nextHandler⟩] := by
  by_cases hsup : e.supportsEvents = true <;>
    simp [bindOne, pushBinding, invokeHandler, attachListener, hsup]

/-- `bind` allocates one fresh handler. -/
theorem bindOne_nextHandler (s : RegState) (e : Elem) :
    (bindOne s e).nextHandler = s.nextHandler + 1 := by
  by_cases hsup : e.supportsEvents = true <;>
    simp [bindOne, pushBinding, invokeHandler, attachListener, hsup]

/-- `bind` attaches the fresh handler exactly when the element supports
event subscription. -/
theorem bindOne_listeners (s : RegState) (e : Elem) :
    (bindOne s e).listeners
      = if e.supportsEvents then s.listeners ++ [⟨e, s.nextHandler⟩]
        else s.listeners := by
  by_cases hsup : e.supportsEvents = true <;>
    simp [bindOne, pushBinding, invokeHandler, attachListener, hsup]

/-- `live` on a single-element resolution is one `bind`. -/
theorem live_single (s : RegState) (e : Elem) :
    live s ⟨true, [e], true⟩ = (some (), bindOne s e) := rfl

/-- `die` on a single-element resolution is one removal step. -/
theorem die_single (s : RegState) (e : Elem) :
    die s true [e] = (some (), dieOne s e) := rfl

/-- The loop of `once` touches only the call log. -/
theorem foldl_onceOne_fields :
    ∀ (l : List Elem) (s : RegState),
      (l.foldl onceOne s).liveElements = s.liveElements ∧
      (l.foldl onceOne s).listeners = s.listeners := by
  intro l
  induction l with
  | nil => intro s; exact ⟨rfl, rfl⟩
  | cons e rest ih =>
    intro s
    simpa only [List.foldl_cons] using ih (onceOne s e)

/-- `enabled` reads only `_liveElements`. -/
theorem enabled_congr {s1 s2 : RegState} (h : s1.liveElements = s2.liveElements) :
    ∀ el, enabled s1 el = enabled s2 el := by
  intro el
  cases el <;> simp [enabled, h]

/-! ## Claims about the registry -/

/-- Claim C4: on validation failure `live`, `die` and `once` throw
nothing, leave the registry state exactly as it was — but, against the
claim (and their own doc comments), they return `undefined` (`none`)
rather than the chainable Countable object. -/
theorem invalid_args_noop (s : RegState) (a : Args) (sel : Bool) (els : List Elem)
    (h1 : validateArguments a = false)
    (h2 : validateArguments ⟨sel, els, true⟩ = false) :
    live s a = (none, s) ∧ once s a = (none, s) ∧ die s sel els = (none, s) := by
  refine ⟨?_, ?_, ?_⟩ <;> simp [live, once, die, h1, h2]

/-- Witness for claim C4: a non-string selector resolving to nothing. -/
theorem invalid_args_noop_witness :
    validateArguments ⟨false, [], false⟩ = false ∧
    validateArguments ⟨false, ([] : List Elem), true⟩ = false ∧
    (live initState ⟨false, [], false⟩ = (none, initState) ∧
      once initState ⟨false, [], false⟩ = (none, initState) ∧
      die initState false [] = (none, initState)) :=
  ⟨by decide, by decide,
    invalid_args_noop initState ⟨false, [], false⟩ false [] (by decide) (by decide)⟩

/-- Claim C8: `once` never mutates the binding registry: both
`_liveElements` and the attached listeners are untouched, so `enabled`
answers the same on every element before and after the call. -/
theorem once_registry_unchanged (s : RegState) (a : Args) :
    (once s a).2.liveElements = s.liveElements ∧
    (once s a).2.listeners = s.listeners ∧
    ∀ el, enabled (once s a).2 el = enabled s el := by
  rcases hv : validateArguments a with _ | _
  · simp [once, hv]
  · simp only [once, hv, Bool.not_true, Bool.false_eq_true, if_false]
    exact ⟨(foldl_onceOne_fields _ s).1, (foldl_onceOne_fields _ s).2,
      enabled_congr (foldl_onceOne_fields _ s).1⟩

/-- `bind` adds one listener for the bound element when it supports
events. -/
theorem bindOne_listenersFor (s : RegState) (e : Elem)
    (hsup : e.supportsEvents = true) :
    listenersFor (bindOne s e) e = listenersFor s e ++ [⟨e, s.nextHandler⟩] := by
  unfold listenersFor
  rw [bindOne_listeners, if_pos hsup, List.filter_append]
  simp

/-- `bind` adds one `_liveElements` entry for the bound element. -/
theorem bindOne_filter_liveElements (s : RegState) (e : Elem) :
    (bindOne s e).liveElements.filter (fun b => b.element == e)
      = s.liveElements.filter (fun b => b.element == e) ++ [⟨e, s.nextHandler⟩] := by
  rw [bindOne_liveElements, List.filter_append]
  simp

/-- Claim C1: false — `live` pushes a new binding and attaches a fresh
handler unconditionally, never replacing or refusing a duplicate.  From
the initial state, two `live` calls on the same element leave two
bindings, and one change event fires two handler invocations (the
`fired` log grows from the two initial fires, length 2, to length 4),
not one. -/
theorem live_twice_counterexample :
    (live (live initState ⟨true, [⟨0, 1, true⟩], true⟩).2
        ⟨true, [⟨0, 1, true⟩], true⟩).2.fired.length = 2 ∧
    ((live (live initState ⟨true, [⟨0, 1, true⟩], true⟩).2
        ⟨true, [⟨0, 1, true⟩], true⟩).2.liveElements.filter
      (fun b => b.element == ⟨0, 1, true⟩)).length = 2 ∧
    (deliverChange (live (live initState ⟨true, [⟨0, 1, true⟩], true⟩).2
        ⟨true, [⟨0, 1, true⟩], true⟩).2 ⟨0, 1, true⟩).fired.length = 4 := by
  decide

/-- Claim C1, amended: enabling twice on the same surface records two
Bindings and attaches two handlers, so a change event fires the callback
twice, not once — the registry does not deduplicate per surface. -/
theorem live_twice_two_bindings (s : RegState) (e : Elem)
    (hsup : e.supportsEvents = true)
    (hl : listenersFor s e = [])
    (hb : s.liveElements.filter (fun b => b.element == e) = []) :
    ((live (live s ⟨true, [e], true⟩).2 ⟨true, [e], true⟩).2.liveElements.filter
        (fun b => b.element == e)).length = 2 ∧
    (listenersFor (live (live s ⟨true, [e], true⟩).2 ⟨true, [e], true⟩).2 e).length = 2 ∧
    (deliverChange (live (live s ⟨true, [e], true⟩).2 ⟨true, [e], true⟩).2 e).fired.length
      = (live (live s ⟨true, [e], true⟩).2 ⟨true, [e], true⟩).2.fired.length + 2 := by
  have hone : (live s ⟨true, [e], true⟩).2 = bindOne s e := by rw [live_single]
  rw [hone]
  have htwo : (live (bindOne s e) ⟨true, [e], true⟩).2 = bindOne (bindOne s e) e := by
    rw [live_single]
  rw [htwo]
  have hfl : ((bindOne (bindOne s e) e).liveElements.filter
      (fun b => b.element == e)).length = 2 := by
    rw [bindOne_filter_liveElements, bindOne_filter_liveElements, hb]
    simp
  have hlf : (listenersFor (bindOne (bindOne s e) e) e).length = 2 := by
    rw [bindOne_listenersFor _ _ hsup, bindOne_listenersFor _ _ hsup, hl]
    simp
  refine ⟨hfl, hlf, ?_⟩
  simp [deliverChange, hlf]

/-- Witness for the amended claim C1 from the initial state. -/
theorem live_twice_two_bindings_witness :
    (⟨0, 1, true⟩ : Elem).supportsEvents = true ∧
    listenersFor initState ⟨0, 1, true⟩ = [] ∧
    initState.liveElements.filter (fun b => b.element == ⟨0, 1, true⟩) = [] ∧
    (((live (live initState ⟨true, [⟨0, 1, true⟩], true⟩).2
          ⟨true, [⟨0, 1, true⟩], true⟩).2.liveElements.filter
        (fun b => b.element == ⟨0, 1, true⟩)).length = 2 ∧
      (listenersFor (live (live initState ⟨true, [⟨0, 1, true⟩], true⟩).2
          ⟨true, [⟨0, 1, true⟩], true⟩).2 ⟨0, 1, true⟩).length = 2 ∧
      (deliverChange (live (live initState ⟨true, [⟨0, 1, true⟩], true⟩).2
          ⟨true, [⟨0, 1, true⟩], true⟩).2 ⟨0, 1, true⟩).fired.length
        = (live (live initState ⟨true, [⟨0, 1, true⟩], true⟩).2
          ⟨true, [⟨0, 1, true⟩], true⟩).2.fired.length + 2) :=
  ⟨rfl, rfl, rfl,
    live_twice_two_bindings initState ⟨0, 1, true⟩ rfl rfl rfl⟩

/-- Claim C7: after one `live` and one `die` on a surface with no prior
binding, `enabled` answers false and a subsequently delivered change
event invokes no callback (the `fired` log does not grow). -/
theorem live_then_die_disables (s : RegState) (e : Elem)
    (hb : ∀ b ∈ s.liveElements, (b.element == e) = false)
    (hl : ∀ b ∈ s.listeners, (b.element == e) = false) :
    enabled (die (live s ⟨true, [e], true⟩).2 true [e]).2 (some e) = false ∧
    (deliverChange (die (live s ⟨true, [e], true⟩).2 true [e]).2 e).fired
      = (die (live s ⟨true, [e], true⟩).2 true [e]).2.fired := by
  have hone : (live s ⟨true, [e], true⟩).2 = bindOne s e := by rw [live_single]
  rw [hone]
  have hdie : (die (bindOne s e) true [e]).2 = dieOne (bindOne s e) e := by
    rw [die_single]
  rw [hdie]
  have hfind : findLive (bindOne s e).liveElements e = some ⟨e, s.nextHandler⟩ := by
    unfold findLive
    rw [bindOne_liveElements, find?_append_of_none _ _ _ hb]
    simp [List.find?]
  have hnotmem : (⟨e, s.nextHandler⟩ : Binding) ∉ s.liveElements := by
    intro hmem
    have h0 := hb _ hmem
    simp at h0
  have hnotmemL : (⟨e, s.nextHandler⟩ : Binding) ∉ s.listeners := by
    intro hmem
    have h0 := hl _ hmem
    simp at h0
  have hremove : dieOne (bindOne s e) e
      = { removeListener (bindOne s e) ⟨e, s.nextHandler⟩ with
            liveElements := (bindOne s e).liveElements.erase ⟨e, s.nextHandler⟩ } := by
    unfold dieOne
    rw [hfind]
  have herase : (bindOne s e).liveElements.erase ⟨e, s.nextHandler⟩
      = s.liveElements := by
    rw [bindOne_liveElements, List.erase_append_right _ hnotmem]
    simp [List.erase_cons]
  have hlive2 : (dieOne (bindOne s e) e).liveElements = s.liveElements := by
    rw [hremove]
    exact herase
  have hlisteners : (dieOne (bindOne s e) e).listeners = s.listeners := by
    rw [hremove]
    show (removeListener (bindOne s e) ⟨e, s.nextHandler⟩).listeners = s.listeners
    unfold removeListener
    by_cases hsup : e.supportsEvents = true
    · rw [if_pos hsup]
      show (bindOne s e).listeners.erase _ = s.listeners
      rw [bindOne_listeners, if_pos hsup, List.erase_append_right _ hnotmemL]
      simp [List.erase_cons]
    · rw [if_neg hsup]
      show (bindOne s e).listeners = s.listeners
      rw [bindOne_listeners, if_neg hsup]
  constructor
  · have hany : s.liveElements.any (fun b => b.element == e) = false := by
      rw [List.any_eq_false]
      intro b hbm
      simp [hb b hbm]
    simp [enabled, hlive2, hany]
  · have hlf : listenersFor (dieOne (bindOne s e) e) e = [] := by
      unfold listenersFor
      rw [hlisteners, List.filter_eq_nil_iff]
      intro b hbm
      simp [hl b hbm]
    simp [deliverChange, hlf]

/-- Witness for claim C7 from the initial state. -/
theorem live_then_die_disables_witness :
    (∀ b ∈ initState.liveElements, (b.element == ⟨0, 1, true⟩) = false) ∧
    (∀ b ∈ initState.listeners, (b.element == ⟨0, 1, true⟩) = false) ∧
    (enabled (die (live initState ⟨true, [⟨0, 1, true⟩], true⟩).2
        true [⟨0, 1, true⟩]).2 (some ⟨0, 1, true⟩) = false ∧
      (deliverChange (die (live initState ⟨true, [⟨0, 1, true⟩], true⟩).2
          true [⟨0, 1, true⟩]).2 ⟨0, 1, true⟩).fired
        = (die (live initState ⟨true, [⟨0, 1, true⟩], true⟩).2
          true [⟨0, 1, true⟩]).2.fired) :=
  ⟨by decide, by decide,
    live_then_die_disables initState ⟨0, 1, true⟩ (by decide) (by decide)⟩

/-- Claim C9: with several bindings recorded for one element, a single
`die` removes exactly the first-pushed (earliest) binding for it — the
reverse inner scan of `_liveElements` ends on the smallest matching
index — and the element remains enabled. -/
theorem die_removes_first_binding (s : RegState) (e : Elem)
    (hn : e.nodeType = 1)
    (h2 : 2 ≤ (s.liveElements.filter (fun b => b.element == e)).length) :
    (die s true [e]).2.liveElements
      = s.liveElements.eraseP (fun b => b.element == e) ∧
    enabled (die s true [e]).2 (some e) = true := by
  have hne : s.liveElements.filter (fun b => b.element == e) ≠ [] := by
    intro h0
    rw [h0] at h2
    simp at h2
  have hex : ∃ x ∈ s.liveElements, (x.element == e) = true := by
    rcases List.exists_mem_of_ne_nil _ hne with ⟨x, hx⟩
    exact ⟨x, List.mem_of_mem_filter hx, (List.mem_filter.mp hx).2⟩
  have hsome : (findLive s.liveElements e).isSome := by
    unfold findLive
    rw [List.find?_isSome]
    exact hex
  rcases hfind : findLive s.liveElements e with _ | b
  · rw [hfind] at hsome
    simp at hsome
  · have herase : s.liveElements.erase b
        = s.liveElements.eraseP (fun b => b.element == e) :=
      erase_eq_eraseP_of_find? _ _ _ hfind
    have hdie : (die s true [e]).2 = dieOne s e := by rw [die_single]
    have hle : (die s true [e]).2.liveElements = s.liveElements.erase b := by
      rw [hdie]
      unfold dieOne
      rw [hfind]
    refine ⟨by rw [hle, herase], ?_⟩
    have hlen : ((s.liveElements.eraseP (fun b => b.element == e)).filter
        (fun b => b.element == e)).length
        = (s.liveElements.filter (fun b => b.element == e)).length - 1 := by
      rw [filter_eraseP, List.length_tail]
    have hpos : ((s.liveElements.eraseP (fun b => b.element == e)).filter
        (fun b => b.element == e)).length ≥ 1 := by
      omega
    have hne2 : (s.liveElements.eraseP (fun b => b.element == e)).filter
        (fun b => b.element == e) ≠ [] := by
      intro h0
      rw [h0] at hpos
      simp at hpos
    rcases List.exists_mem_of_ne_nil _ hne2 with ⟨x, hx⟩
    have hany : ((die s true [e]).2.liveElements.any
        (fun b => b.element == e)) = true := by
      rw [hle, herase, List.any_eq_true]
      exact ⟨x, List.mem_of_mem_filter hx, (List.mem_filter.mp hx).2⟩
    simp [enabled, hn, hany]

/-- Witness for claim C9: a registry holding two bindings for one
element; after `die` the later binding is still there and enabled
still answers true. -/
theorem die_removes_first_binding_witness :
    (⟨0, 1, true⟩ : Elem).nodeType = 1 ∧
    2 ≤ ((⟨[⟨⟨0, 1, true⟩, 0⟩, ⟨⟨0, 1, true⟩, 1⟩],
            [⟨⟨0, 1, true⟩, 0⟩, ⟨⟨0, 1, true⟩, 1⟩], 2, [], []⟩ :
          RegState).liveElements.filter
        (fun b => b.element == ⟨0, 1, true⟩)).length ∧
    ((die (⟨[⟨⟨0, 1, true⟩, 0⟩, ⟨⟨0, 1, true⟩, 1⟩],
            [⟨⟨0, 1, true⟩, 0⟩, ⟨⟨0, 1, true⟩, 1⟩], 2, [], []⟩ : RegState)
        true [⟨0, 1, true⟩]).2.liveElements
      = (⟨[⟨⟨0, 1, true⟩, 0⟩, ⟨⟨0, 1, true⟩, 1⟩],
            [⟨⟨0, 1, true⟩, 0⟩, ⟨⟨0, 1, true⟩, 1⟩], 2, [], []⟩ :
          RegState).liveElements.eraseP (fun b => b.element == ⟨0, 1, true⟩) ∧
      enabled (die (⟨[⟨⟨0, 1, true⟩, 0⟩, ⟨⟨0, 1, true⟩, 1⟩],
            [⟨⟨0, 1, true⟩, 0⟩, ⟨⟨0, 1, true⟩, 1⟩], 2, [], []⟩ : RegState)
          true [⟨0, 1, true⟩]).2 (some ⟨0, 1, true⟩) = true) :=
  ⟨rfl, by decide,
    die_removes_first_binding _ ⟨0, 1, true⟩ rfl (by decide)⟩

/-- Claim C10: inside `bind`, the binding is pushed before the initial
synchronous handler fire, so `enabled` already answers true in the
state the first callback observes; and the initial fire is recorded in
`fired` whatever the listener-attachment step does (it holds also for
elements that support no event subscription). -/
theorem initial_fire_before_attach (s : RegState) (e : Elem)
    (hn : e.nodeType = 1) :
    enabled (pushBinding s e).2 (some e) = true ∧
    (bindOne s e).fired = s.fired ++ [(pushBinding s e).1] := by
  constructor
  · simp [enabled, pushBinding, hn]
  · rw [bindOne_fired]
    rfl

/-- Witness for claim C10, on an element that does not support event
subscription: the initial fire still happens. -/
theorem initial_fire_before_attach_witness :
    (⟨5, 1, false⟩ : Elem).nodeType = 1 ∧
    (enabled (pushBinding initState ⟨5, 1, false⟩).2 (some ⟨5, 1, false⟩) = true ∧
      (bindOne initState ⟨5, 1, false⟩).fired
        = initState.fired ++ [(pushBinding initState ⟨5, 1, false⟩).1]) :=
  ⟨rfl, initial_fire_before_attach initState ⟨5, 1, false⟩ rfl⟩

/-- Witness for the amended claim C3 at the surrogate-free,
whitespace-free text `ab`. -/
theorem characters_le_all_witness :
    (∀ c ∈ [97, 98], isSurr c = false) ∧
    ((count [97, 98] ⟨false, false⟩).characters ≤ (count [97, 98] ⟨false, false⟩).all ∧
      ((∀ c ∈ [97, 98], isWS c = false) →
        (count [97, 98] ⟨false, false⟩).all = (count [97, 98] ⟨false, false⟩).characters)) :=
  ⟨by decide, characters_le_all [97, 98] ⟨false, false⟩ (by decide)⟩
